import Mathlib

/-!
Verification of the RustChain client-side wallet helper
(bottube_static/rustchain_wallet.js).

The JavaScript module is shallowly embedded:

* Strings are Lean `String` / `List Char` (JS strings restricted to Unicode
  scalar values; the code only handles ASCII hex and JSON text).
* `Uint8Array` values are `List Nat` with every element `< 256`; the
  `ToUint8` coercion performed by an element store is `Int.emod · 256 |>.toNat`.
* `localStorage` is a single seed slot `Option String`; stateful operations
  take the slot and return the new slot explicitly.
* The external primitives (tweetnacl and SubtleCrypto sha256) are a record of
  functions `CryptoEnv`; `naclLoaded` models whether the nacl global exists.
* Fallible code returns `Except String`, carrying the thrown message.
* A JS number given to the canonicalizer is modelled by the pair of its
  `Number.prototype.toString` rendering and its finiteness flag (`JsNum`):
  the binary64 arithmetic itself is outside the shallow embedding, but every
  string-level step the wallet performs on that rendering is modelled exactly.
* `parseInt(s, b)` is modelled exactly on its string input (whitespace skip,
  one optional sign, `0x` strip for base 16, maximal digit-prefix parse,
  NaN as `Option.none`), with the parsed value kept as an exact integer.
-/

namespace RC

/-- JS whitespace (ASCII portion) as used by `String.prototype.trim` and
`parseInt` leading-whitespace skipping. -/
def isJsWhitespace (c : Char) : Bool :=
  c = ' ' || c = '\t' || c = '\n' || c = '\r' || c = '\x0b' || c = '\x0c'

/-- Model of `String.prototype.trim` on the character list. -/
def dropTrailWs (l : List Char) : List Char :=
  ((l.reverse).dropWhile isJsWhitespace).reverse

def jsTrim (l : List Char) : List Char :=
  dropTrailWs (l.dropWhile isJsWhitespace)

/-- Model of `toLowerCase` per character (ASCII range, the only range the
wallet feeds it). -/
def jsToLowerChar (c : Char) : Char :=
  if 'A' ≤ c ∧ c ≤ 'Z' then Char.ofNat (c.toNat + 32) else c

/-- Model of `toUpperCase` per character (ASCII range), used to state
case-insensitivity. -/
def jsToUpperChar (c : Char) : Char :=
  if 'a' ≤ c ∧ c ≤ 'z' then Char.ofNat (c.toNat - 32) else c

def isHexDigitChar (c : Char) : Bool :=
  decide (('0' ≤ c ∧ c ≤ '9') ∨ ('a' ≤ c ∧ c ≤ 'f') ∨ ('A' ≤ c ∧ c ≤ 'F'))

def hexDigitVal (c : Char) : Nat :=
  if '0' ≤ c ∧ c ≤ '9' then c.toNat - 48
  else if 'a' ≤ c ∧ c ≤ 'f' then c.toNat - 87
  else if 'A' ≤ c ∧ c ≤ 'F' then c.toNat - 55
  else 0

def hexDigitsVal (ds : List Char) : Nat :=
  ds.foldl (fun a c => a * 16 + hexDigitVal c) 0

def decDigitsVal (ds : List Char) : Nat :=
  ds.foldl (fun a c => a * 10 + (c.toNat - 48)) 0

/-- Sign handling of `parseInt`: at most one leading sign character. -/
def splitSign : List Char → Int × List Char
  | [] => (1, [])
  | c :: r =>
    if c = '-' then (-1, r) else if c = '+' then (1, r) else (1, c :: r)

/-- Base-16 `parseInt` strips a leading 0x / 0X after the sign. -/
def strip0x : List Char → List Char
  | [] => []
  | [c] => [c]
  | c1 :: c2 :: r =>
    if c1 = '0' ∧ (c2 = 'x' ∨ c2 = 'X') then r else c1 :: c2 :: r

/-- After the sign, base-16 `parseInt` strips 0x and reads the maximal
hex-digit prefix; an empty prefix is NaN (`none`). -/
def hexTail (p : Int × List Char) : Option Int :=
  if (strip0x p.2).takeWhile isHexDigitChar = [] then Option.none
  else Option.some (p.1 * (hexDigitsVal ((strip0x p.2).takeWhile isHexDigitChar) : Int))

/-- Model of `parseInt(s, 16)`: skip whitespace, optional sign, strip 0x,
parse the maximal hex-digit prefix; no digit at all is NaN (`none`). -/
def jsParseIntHexL (s : List Char) : Option Int :=
  hexTail (splitSign (s.dropWhile isJsWhitespace))

/-- After the sign, base-10 `parseInt` reads the maximal decimal-digit
prefix; an empty prefix is NaN (`none`). -/
def decTail (p : Int × List Char) : Option Int :=
  if p.2.takeWhile Char.isDigit = [] then Option.none
  else Option.some (p.1 * (decDigitsVal (p.2.takeWhile Char.isDigit) : Int))

/-- Model of `parseInt(s, 10)` (exact-integer value; the binary64 rounding a
JS engine applies beyond 2^53 is outside the model, see the header note). -/
def jsParseIntDec (s : String) : Option Int :=
  decTail (splitSign (s.data.dropWhile isJsWhitespace))

/-- The `out[i] = b` store into a `Uint8Array` coerces through ToUint8. -/
def jsToUint8 (b : Int) : Nat := (b % 256).toNat

/-- Source `_hexToBytes` loop body: each 2-character slice goes through
`parseInt(pair, 16)` and the `Number.isFinite` test. -/
def hexPairBytes : List Char → Option (List Nat)
  | [] => Option.some []
  | c1 :: c2 :: rest =>
    match jsParseIntHexL [c1, c2], hexPairBytes rest with
    | Option.some b, Option.some bs => Option.some (jsToUint8 b :: bs)
    | _, _ => Option.none
  | [_] => Option.none

def startsWith0x : List Char → Bool
  | c1 :: c2 :: _ => c1 = '0' && c2 = 'x'
  | _ => false

/-- The normalization prefix of `_hexToBytes`: trim, lowercase, strip an
optional leading 0x. -/
def hexNormalize (l : List Char) : List Char :=
  if startsWith0x ((jsTrim l).map jsToLowerChar)
  then ((jsTrim l).map jsToLowerChar).drop 2
  else (jsTrim l).map jsToLowerChar

/-- The decoding suffix of `_hexToBytes`: even-length check, then pairwise
`parseInt(·, 16)` with the `Number.isFinite` test. -/
def hexCore (h : List Char) : Except String (List Nat) :=
  if h.length % 2 ≠ 0 then Except.error "hex length must be even"
  else match hexPairBytes h with
    | Option.some bs => Except.ok bs
    | Option.none => Except.error "invalid hex"

/-- Source `_hexToBytes`. -/
def hexToBytes (hex : String) : Except String (List Nat) :=
  hexCore (hexNormalize hex.data)

def decDigitChar (d : Nat) : Char := Char.ofNat (48 + d)

def hexDigitChar (d : Nat) : Char :=
  if d < 10 then Char.ofNat (48 + d) else Char.ofNat (87 + d)

/-- Digits of `n.toString(16)` (lowercase), fuel-structured so it reduces. -/
def natHexDigitsAux : Nat → Nat → List Char
  | 0, _ => []
  | fuel + 1, n =>
    if n < 16 then [hexDigitChar n]
    else natHexDigitsAux fuel (n / 16) ++ [hexDigitChar (n % 16)]

def natHexDigits (n : Nat) : List Char := natHexDigitsAux (n + 1) n

/-- Digits of `n.toString()` (decimal), fuel-structured so it reduces. -/
def natDecDigitsAux : Nat → Nat → List Char
  | 0, _ => []
  | fuel + 1, n =>
    if n < 10 then [decDigitChar n]
    else natDecDigitsAux fuel (n / 10) ++ [decDigitChar (n % 10)]

def natDecDigits (n : Nat) : List Char := natDecDigitsAux (n + 1) n

/-- `String(v)` for an integer-valued JS number (exact-integer model). -/
def jsIntToDecString (v : Int) : String :=
  if v < 0 then String.mk ('-' :: natDecDigits v.natAbs)
  else String.mk (natDecDigits v.toNat)

/-- `String(x)` for the result of `parseInt`, where NaN prints as "NaN". -/
def jsNumToString : Option Int → String
  | Option.none => "NaN"
  | Option.some v => jsIntToDecString v

/-- The `.padStart(2, "0")` applied to each byte's hex digits. -/
def padStart2 (l : List Char) : List Char :=
  if l.length < 2 then List.replicate (2 - l.length) '0' ++ l else l

/-- One byte rendered as `b.toString(16).padStart(2, "0")`. -/
def byteHexChars (b : Nat) : List Char := padStart2 (natHexDigits b)

/-- Source `_bytesToHex`. -/
def bytesToHex (bs : List Nat) : String :=
  String.mk ((bs.map byteHexChars).flatten)

/-- A JS number as the canonicalizer sees it: its `Number.prototype.toString`
rendering plus the `Number.isFinite` flag.  The binary64 semantics producing
that rendering is the floating-point boundary of the model. -/
structure JsNum where
  str : String
  finite : Bool
deriving DecidableEq

/-- Source `_pyFloatRepr`: reject non-finite, then append ".0" exactly when
the toString rendering contains none of '.', 'e', 'E'. -/
def pyFloatRepr (n : JsNum) : Except String String :=
  if n.finite = false then Except.error "amount not finite"
  else
    let s := n.str
    if s.data.contains '.' = false ∧ s.data.contains 'e' = false ∧
        s.data.contains 'E' = false then
      Except.ok (s ++ ".0")
    else Except.ok s

/-- The four hex digits of the `\u00XX` escape. -/
def hexDigit4 (n : Nat) : List Char :=
  [hexDigitChar (n / 4096 % 16), hexDigitChar (n / 256 % 16),
   hexDigitChar (n / 16 % 16), hexDigitChar (n % 16)]

/-- JSON.stringify escaping of one character (ECMA-404 / ES2019 well-formed
stringify; Lean chars are Unicode scalar values, so the lone-surrogate branch
cannot arise). -/
def jsonEscapeChar (c : Char) : List Char :=
  if c = '"' then ['\\', '"']
  else if c = '\\' then ['\\', '\\']
  else if c = '\x08' then ['\\', 'b']
  else if c = '\x09' then ['\\', 't']
  else if c = '\x0a' then ['\\', 'n']
  else if c = '\x0c' then ['\\', 'f']
  else if c = '\x0d' then ['\\', 'r']
  else if c.toNat < 32 then '\\' :: 'u' :: hexDigit4 c.toNat
  else [c]

/-- `JSON.stringify` applied to a string value. -/
def jsonStringify (s : String) : String :=
  String.mk ('"' :: (s.data.map jsonEscapeChar).flatten ++ ['"'])

/-- The `x || ""` coercion applied to a possibly null/undefined string
(`none` models null/undefined; `some ""` is falsy and also yields ""). -/
def jsStrOrEmpty : Option String → String
  | Option.none => ""
  | Option.some s => s

/-- Source `_canonicalTxJson`: the parts array joined with "".  `from`, `to`
and the nonce string arrive as strings (their `String(x || "")` coercion is
the identity on strings); `memo` may be null/undefined. -/
def canonicalTxJson (fromAddr toAddr : String) (amountRtc : JsNum)
    (memo : Option String) (nonceStr : String) : Except String String :=
  match pyFloatRepr amountRtc with
  | Except.error e => Except.error e
  | Except.ok amtStr =>
    Except.ok (String.join
      ["\x7b",
       "\"amount\":", amtStr, ",",
       "\"from\":", jsonStringify fromAddr, ",",
       "\"memo\":", jsonStringify (jsStrOrEmpty memo), ",",
       "\"nonce\":", jsonStringify nonceStr, ",",
       "\"to\":", jsonStringify toAddr,
       "\x7d"])

/-- The spec's canonical wire shape (section 6), written independently of the
parts array: a template with the five fields in lexicographic key order. -/
def canonicalMessageSpec (amountStr fromStr memoStr nonceStr toStr : String) :
    String :=
  "\x7b\"amount\":" ++ amountStr ++
  ",\"from\":" ++ jsonStringify fromStr ++
  ",\"memo\":" ++ jsonStringify memoStr ++
  ",\"nonce\":" ++ jsonStringify nonceStr ++
  ",\"to\":" ++ jsonStringify toStr ++ "\x7d"

/-- The runtime primitives the wallet duck-types: tweetnacl
(`nacl.sign.keyPair.fromSeed`, `nacl.sign.detached`) and SubtleCrypto SHA-256.
`naclLoaded` is the `typeof nacl === "undefined"` availability test.  The
message handed to `signDetached` is its UTF-8 text (the TextEncoder step is
kept at the string level). -/
structure CryptoEnv where
  naclLoaded : Bool
  keyPairFromSeed : List Nat → List Nat × List Nat
  signDetached : String → List Nat → List Nat
  sha256 : List Nat → List Nat

/-- Model of `String.prototype.slice(0, n)`. -/
def jsSlice0 (s : String) (n : Nat) : String := String.mk (s.data.take n)

def sha256Hex (env : CryptoEnv) (bs : List Nat) : String :=
  bytesToHex (env.sha256 bs)

/-- The address computation inlined in `_walletFromSeedHex`:
`"RTC" + sha256Hex(publicKey).slice(0, 40)`. -/
def derive (env : CryptoEnv) (pub : List Nat) : String :=
  "RTC" ++ jsSlice0 (sha256Hex env pub) 40

structure Wallet where
  seedHex : String
  publicKeyHex : String
  address : String
  secretKey : List Nat
deriving DecidableEq

/-- Source `_walletFromSeedHex`. -/
def walletFromSeedHex (env : CryptoEnv) (seedHex : String) :
    Except String Wallet :=
  if env.naclLoaded = false then Except.error "nacl not loaded"
  else match hexToBytes seedHex with
    | Except.error e => Except.error e
    | Except.ok seed =>
      if seed.length ≠ 32 then Except.error "seed must be 32 bytes"
      else
        let kp := env.keyPairFromSeed seed
        Except.ok
          { seedHex := bytesToHex seed,
            publicKeyHex := bytesToHex kp.1,
            address := derive env kp.1,
            secretKey := kp.2 }

/-- Source `getSeedHex`: `String(localStorage.getItem(k) || "").trim()`. -/
def getSeedHex (st : Option String) : String :=
  String.mk (jsTrim (st.getD "").data)

/-- Source `getWallet`. -/
def getWallet (env : CryptoEnv) (st : Option String) :
    Except String (Option Wallet) :=
  let seedHex := getSeedHex st
  if seedHex = "" then Except.ok Option.none
  else Except.map Option.some (walletFromSeedHex env seedHex)

/-- The 32-byte buffer filled by `crypto.getRandomValues` from the raw draw:
a `Uint8Array(32)` holds exactly 32 bytes, each below 256. -/
def toSeed32 (rnd : List Nat) : List Nat :=
  ((rnd.map (fun b => b % 256)).take 32) ++ List.replicate (32 - rnd.length) 0

/-- Source `generateWallet`: note the slot is written before derivation. -/
def generateWallet (env : CryptoEnv) (rnd : List Nat) (_st : Option String) :
    Except String Wallet × Option String :=
  let seedHex := bytesToHex (toSeed32 rnd)
  (walletFromSeedHex env seedHex, Option.some seedHex)

/-- Source `importSeed`: decode and length-check, then write the normalized
hex, then derive (the write precedes derivation). -/
def importSeed (env : CryptoEnv) (seedHex : String) (st : Option String) :
    Except String Wallet × Option String :=
  match hexToBytes seedHex with
  | Except.error e => (Except.error e, st)
  | Except.ok seed =>
    if seed.length ≠ 32 then (Except.error "seed must be 32 bytes", st)
    else
      let normalized := bytesToHex seed
      (walletFromSeedHex env normalized, Option.some normalized)

/-- Source `clearWallet`. -/
def clearWallet (_st : Option String) : Option String := Option.none

/-- The payload nonce field is `parseInt(nonceStr, 10)`, a JS number that
could in general be NaN; NaN is modelled as `none`. -/
structure SignedPayload where
  from_address : String
  public_key : String
  signature : String
  nonce : Option Int
  memo : String
  canonical_message : String
deriving DecidableEq

/-- The body of `signTransfer` once the wallet is available: nonce
validation (`!nonceStr || nonceStr === "NaN"`), canonicalization, signing
and payload assembly. -/
def signWithWallet (env : CryptoEnv) (w : Wallet) (toAddr : String)
    (amountRtc : JsNum) (memo : Option String) (nonceInt : String) :
    Except String SignedPayload :=
  if jsNumToString (jsParseIntDec nonceInt) = "" ∨
      jsNumToString (jsParseIntDec nonceInt) = "NaN" then
    Except.error "invalid nonce"
  else match canonicalTxJson w.address toAddr amountRtc memo
      (jsNumToString (jsParseIntDec nonceInt)) with
    | Except.error e => Except.error e
    | Except.ok msg =>
      Except.ok
        { from_address := w.address,
          public_key := w.publicKeyHex,
          signature := bytesToHex (env.signDetached msg w.secretKey),
          nonce := jsParseIntDec (jsNumToString (jsParseIntDec nonceInt)),
          memo := jsStrOrEmpty memo,
          canonical_message := msg }

/-- Source `signTransfer`.  `nonceInt` is the caller's nonce after the
`String(·)` coercion the function immediately applies. -/
def signTransfer (env : CryptoEnv) (st : Option String) (toAddr : String)
    (amountRtc : JsNum) (memo : Option String) (nonceInt : String) :
    Except String SignedPayload :=
  match getWallet env st with
  | Except.error e => Except.error e
  | Except.ok Option.none => Except.error "no local wallet"
  | Except.ok (Option.some w) =>
    signWithWallet env w toAddr amountRtc memo nonceInt

def exceptIsOk {ε α : Type} : Except ε α → Bool
  | Except.ok _ => true
  | Except.error _ => false

instance {ε α : Type} [DecidableEq ε] [DecidableEq α] :
    DecidableEq (Except ε α) := fun a b =>
  match a, b with
  | Except.ok x, Except.ok y =>
    if h : x = y then Decidable.isTrue (by rw [h])
    else Decidable.isFalse (by intro hc; injection hc; exact h (by assumption))
  | Except.error x, Except.error y =>
    if h : x = y then Decidable.isTrue (by rw [h])
    else Decidable.isFalse (by intro hc; injection hc; exact h (by assumption))
  | Except.ok x, Except.error y =>
    Decidable.isFalse (by intro hc; exact Except.noConfusion hc)
  | Except.error x, Except.ok y =>
    Decidable.isFalse (by intro hc; exact Except.noConfusion hc)

def isLowerHexDigitChar (c : Char) : Bool :=
  decide (('0' ≤ c ∧ c ≤ '9') ∨ ('a' ≤ c ∧ c ≤ 'f'))

/-- Strict lexicographic order on strings, spelled out over the character
lists so that it evaluates. -/
def lexLtChars : List Char → List Char → Bool
  | [], [] => false
  | [], _ :: _ => true
  | _ :: _, [] => false
  | a :: as, b :: bs =>
    if a < b then true else if a = b then lexLtChars as bs else false

/-- The stored-seed format invariant of section 6 of the spec: lowercase hex,
64 characters, decoding to exactly 32 bytes. -/
def seedSlotOk (h : String) : Prop :=
  h.length = 64 ∧ (∀ c ∈ h.data, isLowerHexDigitChar c = true) ∧
  ∃ bs, hexToBytes h = Except.ok bs ∧ bs.length = 32

/-- A concrete crypto environment with every primitive available, used to
evaluate the operations on closed inputs. -/
def envW : CryptoEnv :=
  { naclLoaded := true,
    keyPairFromSeed := fun s => (s, s ++ s),
    signDetached := fun _ _ => [],
    sha256 := fun _ => List.replicate 32 0 }

/-- The same environment with the nacl global missing. -/
def envNoNacl : CryptoEnv := { envW with naclLoaded := false }

/-- The all-zero 32-byte seed in its stored hex form. -/
def z64 : String := String.mk (List.replicate 64 '0')

/-- The wallet `envW` derives from the all-zero seed. -/
def wZ : Wallet :=
  { seedHex := z64,
    publicKeyHex := z64,
    address := String.mk ('R' :: 'T' :: 'C' :: List.replicate 40 '0'),
    secretKey := List.replicate 64 0 }

def jsOne : JsNum := { str := "1", finite := true }

/-! ### Arithmetic facts about the digit tables -/

theorem hexDigitChar_facts : ∀ d : Fin 16,
    isHexDigitChar (hexDigitChar d.val) = true ∧
    hexDigitVal (hexDigitChar d.val) = d.val ∧
    isJsWhitespace (hexDigitChar d.val) = false ∧
    jsToLowerChar (hexDigitChar d.val) = hexDigitChar d.val ∧
    hexDigitChar d.val ≠ '-' ∧ hexDigitChar d.val ≠ '+' ∧
    hexDigitChar d.val ≠ 'x' ∧ hexDigitChar d.val ≠ 'X' ∧
    isLowerHexDigitChar (hexDigitChar d.val) = true := by decide

theorem decDigitChar_facts : ∀ d : Fin 10,
    (decDigitChar d.val).isDigit = true ∧
    (decDigitChar d.val).toNat = 48 + d.val ∧
    isJsWhitespace (decDigitChar d.val) = false ∧
    decDigitChar d.val ≠ '-' ∧ decDigitChar d.val ≠ '+' ∧
    decDigitChar d.val ≠ 'N' := by decide

theorem natHexDigitsAux_pos (fuel n : Nat) (h : 0 < fuel) :
    natHexDigitsAux fuel n =
    if n < 16 then [hexDigitChar n]
    else natHexDigitsAux (fuel - 1) (n / 16) ++ [hexDigitChar (n % 16)] := by
  cases fuel with
  | zero => omega
  | succ f => simp [natHexDigitsAux]

theorem natHexDigits_of_lt (b : Nat) (hb : b < 256) :
    byteHexChars b = [hexDigitChar (b / 16), hexDigitChar (b % 16)] := by
  by_cases h : b < 16
  · have h0 : b / 16 = 0 := Nat.div_eq_of_lt h
    have h1 : b % 16 = b := Nat.mod_eq_of_lt h
    have h3 : hexDigitChar 0 = '0' := rfl
    simp [byteHexChars, natHexDigits, natHexDigitsAux, h, padStart2, h0, h1, h3]
  · have h1 : b / 16 < 16 := by omega
    have h2 : 0 < b := by omega
    simp only [byteHexChars, natHexDigits, natHexDigitsAux, if_neg h]
    rw [natHexDigitsAux_pos b (b / 16) h2, if_pos h1]
    simp [padStart2]

/-! ### List utility lemmas -/

theorem dropWhile_eq_self {p : Char → Bool} (l : List Char)
    (h : ∀ c ∈ l, p c = false) : l.dropWhile p = l := by
  cases l with
  | nil => rfl
  | cons a t =>
    rw [List.dropWhile_cons, h a (by simp)]
    simp

theorem takeWhile_eq_self {p : Char → Bool} :
    ∀ l : List Char, (∀ c ∈ l, p c = true) → l.takeWhile p = l := by
  intro l
  induction l with
  | nil => intro _; rfl
  | cons a t ih =>
    intro h
    rw [List.takeWhile_cons, h a (by simp)]
    simp [ih fun c hc => h c (by simp [hc])]

theorem map_id_of {f : Char → Char} :
    ∀ l : List Char, (∀ c ∈ l, f c = c) → l.map f = l := by
  intro l
  induction l with
  | nil => intro _; rfl
  | cons a t ih =>
    intro h
    rw [List.map_cons, h a (by simp), ih fun c hc => h c (by simp [hc])]

theorem jsTrim_eq_self (l : List Char)
    (h : ∀ c ∈ l, isJsWhitespace c = false) : jsTrim l = l := by
  unfold jsTrim dropTrailWs
  rw [dropWhile_eq_self l h,
    dropWhile_eq_self l.reverse fun c hc => h c (List.mem_reverse.mp hc),
    List.reverse_reverse]

theorem splitSign_of_head (c : Char) (r : List Char)
    (h1 : c ≠ '-') (h2 : c ≠ '+') : splitSign (c :: r) = (1, c :: r) := by
  simp [splitSign, h1, h2]

/-! ### Hex round trip -/

theorem hexDigitChar_facts_n (d : Nat) (hd : d < 16) :
    isHexDigitChar (hexDigitChar d) = true ∧
    hexDigitVal (hexDigitChar d) = d ∧
    isJsWhitespace (hexDigitChar d) = false ∧
    jsToLowerChar (hexDigitChar d) = hexDigitChar d ∧
    hexDigitChar d ≠ '-' ∧ hexDigitChar d ≠ '+' ∧
    hexDigitChar d ≠ 'x' ∧ hexDigitChar d ≠ 'X' ∧
    isLowerHexDigitChar (hexDigitChar d) = true :=
  hexDigitChar_facts ⟨d, hd⟩

theorem jsParseIntHexL_pair (b : Nat) (hb : b < 256) :
    jsParseIntHexL [hexDigitChar (b / 16), hexDigitChar (b % 16)] =
    Option.some (b : Int) := by
  obtain ⟨hx1, hv1, hw1, -, hm1, hp1, -, -, -⟩ :=
    hexDigitChar_facts_n (b / 16) (by omega)
  obtain ⟨hx2, hv2, hw2, -, -, -, hxx2, hXX2, -⟩ :=
    hexDigitChar_facts_n (b % 16) (by omega)
  have hws : ∀ c ∈ [hexDigitChar (b / 16), hexDigitChar (b % 16)],
      isJsWhitespace c = false := by
    intro c hc
    simp at hc
    rcases hc with rfl | rfl
    · exact hw1
    · exact hw2
  have hhx : ∀ c ∈ [hexDigitChar (b / 16), hexDigitChar (b % 16)],
      isHexDigitChar c = true := by
    intro c hc
    simp at hc
    rcases hc with rfl | rfl
    · exact hx1
    · exact hx2
  have hstrip : strip0x [hexDigitChar (b / 16), hexDigitChar (b % 16)] =
      [hexDigitChar (b / 16), hexDigitChar (b % 16)] := by
    simp only [strip0x, ite_eq_right_iff]
    intro hcond
    rcases hcond.2 with h | h
    · exact absurd h hxx2
    · exact absurd h hXX2
  unfold jsParseIntHexL
  rw [dropWhile_eq_self _ hws, splitSign_of_head _ _ hm1 hp1]
  simp [hexTail, hstrip, takeWhile_eq_self _ hhx, hexDigitsVal, hv1, hv2]
  omega

theorem hexPairBytes_roundtrip (bs : List Nat) (hb : ∀ b ∈ bs, b < 256) :
    hexPairBytes ((bs.map byteHexChars).flatten) = Option.some bs := by
  induction bs with
  | nil => rfl
  | cons b rest ih =>
    have hb1 : b < 256 := hb b (by simp)
    have hbr : ∀ x ∈ rest, x < 256 := fun x hx => hb x (by simp [hx])
    rw [List.map_cons, List.flatten_cons, natHexDigits_of_lt b hb1]
    show hexPairBytes
      (hexDigitChar (b / 16) :: hexDigitChar (b % 16) ::
        (rest.map byteHexChars).flatten) = _
    unfold hexPairBytes
    have hpair := jsParseIntHexL_pair b hb1
    rw [show (([hexDigitChar (b / 16), hexDigitChar (b % 16)] : List Char)) =
      [hexDigitChar (b / 16), hexDigitChar (b % 16)] from rfl] at hpair
    rw [hpair, ih hbr]
    have hu : jsToUint8 (b : Int) = b := by unfold jsToUint8; omega
    simp [hu]

theorem mem_hexChars (bs : List Nat) (hb : ∀ b ∈ bs, b < 256) :
    ∀ c ∈ (bs.map byteHexChars).flatten, ∃ d : Fin 16, c = hexDigitChar d.val := by
  intro c hc
  rw [List.mem_flatten] at hc
  obtain ⟨l, hl, hcl⟩ := hc
  rw [List.mem_map] at hl
  obtain ⟨b, hbmem, rfl⟩ := hl
  have hblt := hb b hbmem
  rw [natHexDigits_of_lt b hblt] at hcl
  simp at hcl
  rcases hcl with rfl | rfl
  · exact ⟨⟨b / 16, by omega⟩, rfl⟩
  · exact ⟨⟨b % 16, by omega⟩, rfl⟩

theorem hexChars_length (bs : List Nat) (hb : ∀ b ∈ bs, b < 256) :
    ((bs.map byteHexChars).flatten).length = 2 * bs.length := by
  induction bs with
  | nil => rfl
  | cons b rest ih =>
    rw [List.map_cons, List.flatten_cons, natHexDigits_of_lt b (hb b (by simp)),
      List.length_append, ih fun x hx => hb x (by simp [hx])]
    simp
    omega

theorem startsWith0x_hexChars (bs : List Nat) (hb : ∀ b ∈ bs, b < 256) :
    startsWith0x ((bs.map byteHexChars).flatten) = false := by
  cases bs with
  | nil => rfl
  | cons b rest =>
    rw [List.map_cons, List.flatten_cons, natHexDigits_of_lt b (hb b (by simp))]
    obtain ⟨-, -, -, -, -, -, hxx, -, -⟩ := hexDigitChar_facts ⟨b % 16, by omega⟩
    simp [startsWith0x, hxx]

theorem hexChars_not_ws (bs : List Nat) (hb : ∀ b ∈ bs, b < 256) :
    ∀ c ∈ (bs.map byteHexChars).flatten, isJsWhitespace c = false := by
  intro c hc
  obtain ⟨d, rfl⟩ := mem_hexChars bs hb c hc
  exact (hexDigitChar_facts d).2.2.1

theorem hexChars_lower_fixed (bs : List Nat) (hb : ∀ b ∈ bs, b < 256) :
    ∀ c ∈ (bs.map byteHexChars).flatten, jsToLowerChar c = c := by
  intro c hc
  obtain ⟨d, rfl⟩ := mem_hexChars bs hb c hc
  exact (hexDigitChar_facts d).2.2.2.1

theorem hexCore_flatten (bs : List Nat) (hb : ∀ b ∈ bs, b < 256) :
    hexCore ((bs.map byteHexChars).flatten) = Except.ok bs := by
  unfold hexCore
  rw [hexChars_length bs hb, if_neg (by omega), hexPairBytes_roundtrip bs hb]

theorem hexNormalize_hexChars (bs : List Nat) (hb : ∀ b ∈ bs, b < 256) :
    hexNormalize ((bs.map byteHexChars).flatten) =
      (bs.map byteHexChars).flatten := by
  unfold hexNormalize
  rw [jsTrim_eq_self _ (hexChars_not_ws bs hb),
    map_id_of _ (hexChars_lower_fixed bs hb), startsWith0x_hexChars bs hb]
  simp

theorem hexToBytes_bytesToHex (bs : List Nat) (hb : ∀ b ∈ bs, b < 256) :
    hexToBytes (bytesToHex bs) = Except.ok bs := by
  show hexCore (hexNormalize ((bs.map byteHexChars).flatten)) = _
  rw [hexNormalize_hexChars bs hb, hexCore_flatten bs hb]

theorem hexPairBytes_lt :
    ∀ (l : List Char) (bs : List Nat), hexPairBytes l = Option.some bs →
      ∀ b ∈ bs, b < 256
  | [], bs, h => by
    simp [hexPairBytes] at h
    subst h
    simp
  | [c], bs, h => by simp [hexPairBytes] at h
  | c1 :: c2 :: rest, bs, h => by
    unfold hexPairBytes at h
    cases hp : jsParseIntHexL [c1, c2] with
    | none => rw [hp] at h; simp at h
    | some v =>
      cases hr : hexPairBytes rest with
      | none => rw [hp, hr] at h; simp at h
      | some bs2 =>
        rw [hp, hr] at h
        simp at h
        subst h
        intro b hbm
        rcases List.mem_cons.mp hbm with rfl | hbm2
        · unfold jsToUint8; omega
        · exact hexPairBytes_lt rest bs2 hr b hbm2

theorem hexCore_ok_lt (l : List Char) (bs : List Nat)
    (h : hexCore l = Except.ok bs) : ∀ b ∈ bs, b < 256 := by
  unfold hexCore at h
  by_cases he : l.length % 2 ≠ 0
  · rw [if_pos he] at h; simp at h
  · rw [if_neg he] at h
    cases hp : hexPairBytes l with
    | none => rw [hp] at h; simp at h
    | some bs2 =>
      rw [hp] at h
      simp at h
      subst h
      exact hexPairBytes_lt l bs2 hp

theorem hexToBytes_ok_lt (s : String) (bs : List Nat)
    (h : hexToBytes s = Except.ok bs) : ∀ b ∈ bs, b < 256 :=
  hexCore_ok_lt (hexNormalize s.data) bs h

/-! ### Decimal round trip -/

theorem decDigitChar_facts_n (d : Nat) (hd : d < 10) :
    (decDigitChar d).isDigit = true ∧ (decDigitChar d).toNat = 48 + d ∧
    isJsWhitespace (decDigitChar d) = false ∧
    decDigitChar d ≠ '-' ∧ decDigitChar d ≠ '+' ∧ decDigitChar d ≠ 'N' :=
  decDigitChar_facts ⟨d, hd⟩

theorem natDecDigitsAux_correct : ∀ (fuel n : Nat), n < fuel →
    (∀ c ∈ natDecDigitsAux fuel n, c.isDigit = true) ∧
    decDigitsVal (natDecDigitsAux fuel n) = n ∧
    natDecDigitsAux fuel n ≠ [] := by
  intro fuel
  induction fuel with
  | zero => intro n h; omega
  | succ f ih =>
    intro n h
    by_cases h10 : n < 10
    · obtain ⟨hd, ht, -, -, -, -⟩ := decDigitChar_facts_n n h10
      refine ⟨?_, ?_, ?_⟩
      · intro c hc
        simp [natDecDigitsAux, h10] at hc
        subst hc
        exact hd
      · simp [natDecDigitsAux, h10, decDigitsVal, ht]
      · simp [natDecDigitsAux, h10]
    · have hlt : n / 10 < n := Nat.div_lt_self (by omega) (by omega)
      have hf : n / 10 < f := by omega
      obtain ⟨ha, hv, hne⟩ := ih (n / 10) hf
      obtain ⟨hd, ht, -, -, -, -⟩ := decDigitChar_facts_n (n % 10) (by omega)
      refine ⟨?_, ?_, ?_⟩
      · intro c hc
        simp [natDecDigitsAux, h10] at hc
        rcases hc with hc | hc
        · exact ha c hc
        · subst hc; exact hd
      · simp only [natDecDigitsAux, if_neg h10]
        simp only [decDigitsVal, List.foldl_append, List.foldl]
        show (decDigitsVal (natDecDigitsAux f (n / 10))) * 10 +
          ((decDigitChar (n % 10)).toNat - 48) = n
        rw [hv, ht]
        omega
      · simp [natDecDigitsAux, h10]

theorem natDecDigits_correct (n : Nat) :
    (∀ c ∈ natDecDigits n, c.isDigit = true) ∧
    decDigitsVal (natDecDigits n) = n ∧ natDecDigits n ≠ [] :=
  natDecDigitsAux_correct (n + 1) n (by omega)

theorem splitSign_minus (r : List Char) : splitSign ('-' :: r) = (-1, r) := by
  simp [splitSign]

theorem digit_not_ws (c : Char) (h : c.isDigit = true) :
    isJsWhitespace c = false := by
  cases hiw : isJsWhitespace c
  · rfl
  · exfalso
    unfold isJsWhitespace at hiw
    simp at hiw
    rcases hiw with ((((rfl | rfl) | rfl) | rfl) | rfl) | rfl <;>
      simp [Char.isDigit] at h

theorem digit_ne_minus (c : Char) (h : c.isDigit = true) : c ≠ '-' := by
  intro hc; subst hc; simp [Char.isDigit] at h

theorem digit_ne_plus (c : Char) (h : c.isDigit = true) : c ≠ '+' := by
  intro hc; subst hc; simp [Char.isDigit] at h

theorem decTail_eq (sgn : Int) (l : List Char)
    (ha : ∀ c ∈ l, c.isDigit = true) (hne : l ≠ []) :
    decTail (sgn, l) = Option.some (sgn * (decDigitsVal l : Int)) := by
  show (if l.takeWhile Char.isDigit = [] then Option.none
    else Option.some (sgn * (decDigitsVal (l.takeWhile Char.isDigit) : Int))) = _
  rw [takeWhile_eq_self _ ha, if_neg hne]

theorem jsParseIntDec_decString (v : Int) :
    jsParseIntDec (jsIntToDecString v) = Option.some v := by
  by_cases hv : v < 0
  · obtain ⟨ha, hval, hne⟩ := natDecDigits_correct v.natAbs
    unfold jsIntToDecString
    rw [if_pos hv]
    show decTail (splitSign
      (('-' :: natDecDigits v.natAbs).dropWhile isJsWhitespace)) = _
    rw [List.dropWhile_cons]
    simp only [show isJsWhitespace '-' = false from rfl, Bool.false_eq_true,
      if_false]
    rw [splitSign_minus, decTail_eq _ _ ha hne, hval]
    have h1 : ((v.natAbs : Nat) : Int) = -v := by omega
    rw [h1]
    have h2 : (-1 : Int) * -v = v := by ring
    rw [h2]
  · obtain ⟨ha, hval, hne⟩ := natDecDigits_correct v.toNat
    unfold jsIntToDecString
    rw [if_neg hv]
    show decTail (splitSign
      ((natDecDigits v.toNat).dropWhile isJsWhitespace)) = _
    rw [dropWhile_eq_self _ fun c hc => digit_not_ws c (ha c hc)]
    cases hds : natDecDigits v.toNat with
    | nil => exact absurd hds hne
    | cons c t =>
      have ha2 : ∀ x ∈ c :: t, x.isDigit = true := by rw [← hds]; exact ha
      have hcd : c.isDigit = true := ha2 c (by simp)
      rw [splitSign_of_head c t (digit_ne_minus c hcd) (digit_ne_plus c hcd),
        decTail_eq _ _ ha2 (by simp)]
      have hval2 : decDigitsVal (c :: t) = v.toNat := by rw [← hds]; exact hval
      rw [hval2]
      have h2 : ((v.toNat : Nat) : Int) = v := by omega
      rw [h2]
      simp

theorem jsIntToDecString_ne_empty (v : Int) : jsIntToDecString v ≠ "" := by
  unfold jsIntToDecString
  by_cases hv : v < 0
  · rw [if_pos hv]
    intro h
    have := congrArg String.data h
    simp at this
  · rw [if_neg hv]
    obtain ⟨-, -, hne⟩ := natDecDigits_correct v.toNat
    intro h
    have := congrArg String.data h
    simp at this
    exact hne this

theorem jsIntToDecString_ne_nan (v : Int) : jsIntToDecString v ≠ "NaN" := by
  unfold jsIntToDecString
  by_cases hv : v < 0
  · rw [if_pos hv]
    intro h
    have hd := congrArg String.data h
    simp at hd
  · rw [if_neg hv]
    obtain ⟨ha, -, hne⟩ := natDecDigits_correct v.toNat
    intro h
    have hd := congrArg String.data h
    have hdata : String.data "NaN" = ['N', 'a', 'N'] := rfl
    rw [hdata] at hd
    simp at hd
    have hN : ('N' : Char).isDigit = true := by
      have := ha 'N' (by rw [hd]; simp)
      exact this
    simp [Char.isDigit] at hN

/-! ### Wallet-level lemmas -/

theorem string_mk_data (s : String) : String.mk s.data = s := rfl

theorem toSeed32_length (rnd : List Nat) : (toSeed32 rnd).length = 32 := by
  unfold toSeed32
  simp
  omega

theorem toSeed32_lt (rnd : List Nat) : ∀ b ∈ toSeed32 rnd, b < 256 := by
  intro b hb
  unfold toSeed32 at hb
  rcases List.mem_append.mp hb with h | h
  · obtain ⟨x, -, rfl⟩ := List.mem_map.mp (List.take_subset _ _ h)
    omega
  · rw [List.eq_of_mem_replicate h]
    omega

theorem bytesToHex_ne_empty (bs : List Nat) (hb : ∀ b ∈ bs, b < 256)
    (h0 : bs ≠ []) : bytesToHex bs ≠ "" := by
  intro he
  have hd : (bs.map byteHexChars).flatten = ([] : List Char) :=
    congrArg String.data he
  have hlen := congrArg List.length hd
  rw [hexChars_length bs hb] at hlen
  have h2 : 2 * bs.length = 0 := by simpa using hlen
  exact h0 (List.length_eq_zero.mp (by omega))

theorem walletFromSeedHex_ok (env : CryptoEnv) (bs : List Nat)
    (hn : env.naclLoaded = true) (hb : ∀ b ∈ bs, b < 256)
    (hl : bs.length = 32) :
    walletFromSeedHex env (bytesToHex bs) = Except.ok
      { seedHex := bytesToHex bs,
        publicKeyHex := bytesToHex (env.keyPairFromSeed bs).1,
        address := derive env (env.keyPairFromSeed bs).1,
        secretKey := (env.keyPairFromSeed bs).2 } := by
  unfold walletFromSeedHex
  rw [hn, hexToBytes_bytesToHex bs hb]
  simp [hl]

theorem getSeedHex_stored (bs : List Nat) (hb : ∀ b ∈ bs, b < 256) :
    getSeedHex (Option.some (bytesToHex bs)) = bytesToHex bs := by
  unfold getSeedHex
  show String.mk (jsTrim ((bs.map byteHexChars).flatten)) = _
  rw [jsTrim_eq_self _ (hexChars_not_ws bs hb)]
  rfl

theorem getWallet_stored (env : CryptoEnv) (bs : List Nat)
    (hb : ∀ b ∈ bs, b < 256) (hl : bs.length = 32) :
    getWallet env (Option.some (bytesToHex bs)) =
      Except.map Option.some (walletFromSeedHex env (bytesToHex bs)) := by
  have hne : bytesToHex bs ≠ "" :=
    bytesToHex_ne_empty bs hb (by intro h; rw [h] at hl; simp at hl)
  unfold getWallet
  simp only [getSeedHex_stored bs hb]
  rw [if_neg hne]

/-! ### Case and 0x-prefix insensitivity of the hex decoder -/

def strUpper (s : String) : String := String.mk (s.data.map jsToUpperChar)

theorem hexDigitChar_upper_facts : ∀ d : Fin 16,
    jsToLowerChar (jsToUpperChar (hexDigitChar d.val)) = hexDigitChar d.val ∧
    isJsWhitespace (jsToUpperChar (hexDigitChar d.val)) = false ∧
    jsToUpperChar (hexDigitChar d.val) ≠ 'x' := by decide

theorem hexToBytes_upper (bs : List Nat) (hb : ∀ b ∈ bs, b < 256) :
    hexToBytes (strUpper (bytesToHex bs)) = Except.ok bs := by
  have hmem := mem_hexChars bs hb
  have hws : ∀ c ∈ ((bs.map byteHexChars).flatten).map jsToUpperChar,
      isJsWhitespace c = false := by
    intro c hc
    obtain ⟨c0, hc0, rfl⟩ := List.mem_map.mp hc
    obtain ⟨d, rfl⟩ := hmem c0 hc0
    exact (hexDigitChar_upper_facts d).2.1
  have hlow : ((bs.map byteHexChars).flatten).map
      (jsToLowerChar ∘ jsToUpperChar) = (bs.map byteHexChars).flatten := by
    apply map_id_of
    intro c hc
    obtain ⟨d, rfl⟩ := hmem c hc
    exact (hexDigitChar_upper_facts d).1
  have hnorm : hexNormalize (((bs.map byteHexChars).flatten).map jsToUpperChar)
      = (bs.map byteHexChars).flatten := by
    unfold hexNormalize
    rw [jsTrim_eq_self _ hws, List.map_map, hlow, startsWith0x_hexChars bs hb]
    simp
  show hexCore (hexNormalize
    (((bs.map byteHexChars).flatten).map jsToUpperChar)) = _
  rw [hnorm, hexCore_flatten bs hb]

theorem hexToBytes_0x (bs : List Nat) (hb : ∀ b ∈ bs, b < 256) :
    hexToBytes (String.mk ('0' :: 'x' :: (bs.map byteHexChars).flatten)) =
      Except.ok bs := by
  have hws : ∀ c ∈ '0' :: 'x' :: (bs.map byteHexChars).flatten,
      isJsWhitespace c = false := by
    intro c hc
    rcases List.mem_cons.mp hc with rfl | hc2
    · rfl
    · rcases List.mem_cons.mp hc2 with rfl | hc3
      · rfl
      · exact hexChars_not_ws bs hb c hc3
  have hlow : ('0' :: 'x' :: (bs.map byteHexChars).flatten).map jsToLowerChar =
      '0' :: 'x' :: (bs.map byteHexChars).flatten := by
    apply map_id_of
    intro c hc
    rcases List.mem_cons.mp hc with rfl | hc2
    · rfl
    · rcases List.mem_cons.mp hc2 with rfl | hc3
      · rfl
      · exact hexChars_lower_fixed bs hb c hc3
  have hnorm : hexNormalize ('0' :: 'x' :: (bs.map byteHexChars).flatten) =
      (bs.map byteHexChars).flatten := by
    unfold hexNormalize
    rw [jsTrim_eq_self _ hws, hlow]
    rw [show startsWith0x ('0' :: 'x' :: (bs.map byteHexChars).flatten) = true
      from by simp [startsWith0x]]
    simp
  show hexCore (hexNormalize ('0' :: 'x' :: (bs.map byteHexChars).flatten)) = _
  rw [hnorm, hexCore_flatten bs hb]

theorem take_flatten_hex : ∀ (bs : List Nat), (∀ b ∈ bs, b < 256) → ∀ k,
    ((bs.map byteHexChars).flatten).take (2 * k) =
      ((bs.take k).map byteHexChars).flatten := by
  intro bs
  induction bs with
  | nil => intro _ k; simp
  | cons b rest ih =>
    intro hb k
    cases k with
    | zero => simp
    | succ k2 =>
      have hrest : ∀ x ∈ rest, x < 256 := fun x hx => hb x (by simp [hx])
      rw [List.map_cons, List.flatten_cons, natHexDigits_of_lt b (hb b (by simp)),
        show (b :: rest).take (k2 + 1) = b :: rest.take k2 from rfl,
        List.map_cons, List.flatten_cons, natHexDigits_of_lt b (hb b (by simp)),
        show 2 * (k2 + 1) = 2 * k2 + 1 + 1 by ring]
      show List.take (2 * k2 + 1 + 1)
        (hexDigitChar (b / 16) :: hexDigitChar (b % 16) ::
          (rest.map byteHexChars).flatten) =
        hexDigitChar (b / 16) :: hexDigitChar (b % 16) ::
          ((rest.take k2).map byteHexChars).flatten
      rw [List.take_succ_cons, List.take_succ_cons, ih hrest k2]

/-! ### Claim theorems -/

/-- C7: after clear() the store is Locked: get() returns none and a build
(signTransfer) attempted after clear() fails with the no-wallet error,
producing no payload; the cleared slot does not depend on the prior state,
so this holds after every prior sequence of generate/import calls. -/
theorem c7_clear_locks (env : CryptoEnv) (st : Option String) (toAddr : String)
    (amt : JsNum) (memo : Option String) (nonce : String) :
    getWallet env (clearWallet st) = Except.ok Option.none ∧
    signTransfer env (clearWallet st) toAddr amt memo nonce =
      Except.error "no local wallet" :=
  ⟨rfl, rfl⟩

/-- C1: for every signed transfer the canonical message is exactly the
spec's byte template with keys in strict lexicographic order
amount, from, memo, nonce, to, no whitespace, comma field separators and
colon key separators, where from, memo, nonce, to are JSON-escaped quoted
strings (the nonce is quoted) and the rendered amount is the only bare
value. -/
theorem canonicalTxJson_spec (F T : String) (amt : JsNum)
    (memo : Option String) (N A : String)
    (hA : pyFloatRepr amt = Except.ok A) :
    canonicalTxJson F T amt memo N =
      Except.ok (canonicalMessageSpec A F (jsStrOrEmpty memo) N T) := by
  have hstep : canonicalTxJson F T amt memo N = Except.ok (String.join
      ["\x7b",
       "\"amount\":", A, ",",
       "\"from\":", jsonStringify F, ",",
       "\"memo\":", jsonStringify (jsStrOrEmpty memo), ",",
       "\"nonce\":", jsonStringify N, ",",
       "\"to\":", jsonStringify T,
       "\x7d"]) := by
    unfold canonicalTxJson
    rw [hA]
  rw [hstep]
  refine congrArg Except.ok ?_
  apply String.ext
  rw [String.join_eq]
  have e1 : ("\x7b\"amount\":" : String).data =
    "\x7b".data ++ "\"amount\":".data := rfl
  have e2 : (",\"from\":" : String).data = ",".data ++ "\"from\":".data := rfl
  have e3 : (",\"memo\":" : String).data = ",".data ++ "\"memo\":".data := rfl
  have e4 : (",\"nonce\":" : String).data = ",".data ++ "\"nonce\":".data := rfl
  have e5 : (",\"to\":" : String).data = ",".data ++ "\"to\":".data := rfl
  simp [canonicalMessageSpec, String.data_append, e1, e2, e3, e4, e5]

/-- The error path of the canonicalizer: a non-finite amount propagates the
thrown message before anything is serialized. -/
theorem canonicalTxJson_err (F T : String) (amt : JsNum)
    (memo : Option String) (N e : String)
    (hA : pyFloatRepr amt = Except.error e) :
    canonicalTxJson F T amt memo N = Except.error e := by
  unfold canonicalTxJson
  rw [hA]

/-- C1: for every signed transfer the canonical message is exactly the
spec's byte template with keys in strict lexicographic order
amount, from, memo, nonce, to, no whitespace, comma field separators and
colon key separators, where from, memo, nonce, to are JSON-escaped quoted
strings (the nonce is quoted) and the rendered amount is the only bare
value. -/
theorem c1_canonical_message (F T : String) (amt : JsNum)
    (memo : Option String) (N A : String)
    (hA : pyFloatRepr amt = Except.ok A) :
    canonicalTxJson F T amt memo N =
      Except.ok (canonicalMessageSpec A F (jsStrOrEmpty memo) N T) ∧
    (lexLtChars "amount".data "from".data = true ∧
      lexLtChars "from".data "memo".data = true ∧
      lexLtChars "memo".data "nonce".data = true ∧
      lexLtChars "nonce".data "to".data = true) :=
  ⟨canonicalTxJson_spec F T amt memo N A hA, by decide⟩

theorem c1_canonical_message_witness :
    canonicalTxJson "R\"T" "To" jsOne Option.none "7" =
      Except.ok (canonicalMessageSpec "1.0" "R\"T" (jsStrOrEmpty Option.none)
        "7" "To") ∧
    (lexLtChars "amount".data "from".data = true ∧
      lexLtChars "from".data "memo".data = true ∧
      lexLtChars "memo".data "nonce".data = true ∧
      lexLtChars "nonce".data "to".data = true) :=
  c1_canonical_message "R\"T" "To" jsOne Option.none "7" "1.0" (by decide)

/-- C6: address derivation is a pure, total, deterministic function of the
public key: it equals "RTC" followed by the first 40 lowercase hex
characters of sha256(pk) — that is, the hex of the digest's first 20
bytes — with no separators and total length 43.  In the embedding derive
is a function, so two invocations on the same key are identical. -/
theorem c6_derive (env : CryptoEnv) (pk : List Nat)
    (h32 : (env.sha256 pk).length = 32)
    (hlt : ∀ b ∈ env.sha256 pk, b < 256) :
    derive env pk = "RTC" ++ bytesToHex ((env.sha256 pk).take 20) ∧
    (derive env pk).length = 43 ∧
    ∀ c ∈ (bytesToHex ((env.sha256 pk).take 20)).data,
      isLowerHexDigitChar c = true := by
  have htake : (((env.sha256 pk).map byteHexChars).flatten).take 40 =
      (((env.sha256 pk).take 20).map byteHexChars).flatten := by
    rw [show (40 : Nat) = 2 * 20 by ring]
    exact take_flatten_hex (env.sha256 pk) hlt 20
  have hsub : ∀ b ∈ (env.sha256 pk).take 20, b < 256 :=
    fun b hb => hlt b (List.take_subset _ _ hb)
  have hmain : derive env pk = "RTC" ++ bytesToHex ((env.sha256 pk).take 20) := by
    unfold derive jsSlice0 sha256Hex
    rw [show (bytesToHex (env.sha256 pk)).data =
      ((env.sha256 pk).map byteHexChars).flatten from rfl, htake]
    rfl
  refine ⟨hmain, ?_, ?_⟩
  · rw [hmain, String.length_append,
      show (bytesToHex ((env.sha256 pk).take 20)).length =
        ((((env.sha256 pk).take 20).map byteHexChars).flatten).length from rfl,
      hexChars_length _ hsub, List.length_take, h32,
      show ("RTC" : String).length = 3 from rfl]
    omega
  · intro c hc
    obtain ⟨d, rfl⟩ :=
      mem_hexChars ((env.sha256 pk).take 20) hsub c hc
    exact (hexDigitChar_facts d).2.2.2.2.2.2.2.2

theorem c6_derive_witness :
    derive envW [7] = "RTC" ++ bytesToHex ((envW.sha256 [7]).take 20) ∧
    (derive envW [7]).length = 43 ∧
    ∀ c ∈ (bytesToHex ((envW.sha256 [7]).take 20)).data,
      isLowerHexDigitChar c = true :=
  c6_derive envW [7] (by decide) (by decide)

theorem seedSlotOk_bytesToHex (bs : List Nat) (hb : ∀ b ∈ bs, b < 256)
    (hl : bs.length = 32) : seedSlotOk (bytesToHex bs) := by
  refine ⟨?_, ?_, bs, hexToBytes_bytesToHex bs hb, hl⟩
  · rw [show (bytesToHex bs).length =
      ((bs.map byteHexChars).flatten).length from rfl,
      hexChars_length bs hb, hl]
  · intro c hc
    obtain ⟨d, rfl⟩ := mem_hexChars bs hb c hc
    exact (hexDigitChar_facts d).2.2.2.2.2.2.2.2

/-- C9: every value the wallet writes to the seed slot — via generate() or
via import(), regardless of the case or 0x prefix of the caller's input —
is a lowercase hex string of exactly 64 characters representing exactly 32
bytes: generate always writes such a value, and import either leaves the
slot untouched or writes such a value. -/
theorem c9_seed_slot_format (env : CryptoEnv) (rnd : List Nat) (s : String)
    (st : Option String) :
    ((generateWallet env rnd st).2 = Option.some (bytesToHex (toSeed32 rnd)) ∧
      seedSlotOk (bytesToHex (toSeed32 rnd))) ∧
    ((importSeed env s st).2 = st ∨
      ∃ hx, (importSeed env s st).2 = Option.some hx ∧ seedSlotOk hx) := by
  constructor
  · exact ⟨rfl, seedSlotOk_bytesToHex _ (toSeed32_lt rnd) (toSeed32_length rnd)⟩
  · rcases hx : hexToBytes s with e | seed
    · left
      unfold importSeed
      rw [hx]
    · by_cases hlen : seed.length = 32
      · right
        refine ⟨bytesToHex seed, ?_, seedSlotOk_bytesToHex seed
          (hexToBytes_ok_lt s seed hx) hlen⟩
        unfold importSeed
        rw [hx]
        simp [hlen]
      · left
        unfold importSeed
        rw [hx]
        simp [hlen]

/-- C8: for every 32-byte seed created by generate, importing the stored
seed hex reproduces exactly the same wallet — same address and public
key — and a subsequent get() on the stored slot returns that same wallet
again; derivation from the seed is deterministic. -/
theorem c8_import_get_reproduces (env : CryptoEnv) (rnd : List Nat)
    (st st2 st1 : Option String) (w : Wallet)
    (hn : env.naclLoaded = true)
    (hg : generateWallet env rnd st = (Except.ok w, st1)) :
    importSeed env w.seedHex st2 = (Except.ok w, Option.some w.seedHex) ∧
    getWallet env (Option.some w.seedHex) = Except.ok (Option.some w) := by
  have hb := toSeed32_lt rnd
  have hl := toSeed32_length rnd
  have hwfs := walletFromSeedHex_ok env (toSeed32 rnd) hn hb hl
  have hfst : walletFromSeedHex env (bytesToHex (toSeed32 rnd)) =
      Except.ok w := congrArg Prod.fst hg
  have hrec := Except.ok.inj (hwfs.symm.trans hfst)
  have hseed : w.seedHex = bytesToHex (toSeed32 rnd) := by
    rw [← hrec]
  constructor
  · rw [hseed]
    unfold importSeed
    rw [hexToBytes_bytesToHex _ hb]
    simp only [hl]
    rw [if_neg (by omega), hfst]
  · rw [hseed, getWallet_stored env _ hb hl, hfst]
    rfl

theorem c8_import_get_reproduces_witness :
    importSeed envW wZ.seedHex Option.none =
      (Except.ok wZ, Option.some wZ.seedHex) ∧
    getWallet envW (Option.some wZ.seedHex) = Except.ok (Option.some wZ) :=
  c8_import_get_reproduces envW [] Option.none Option.none
    (Option.some z64) wZ rfl (by decide)

/-- C5 counterexample: with the signature primitive unavailable, importing
a fully valid 32-byte seed hex fails — yet writes the seed slot: the
stored state changes from empty to the normalized seed, refuting the claim
that the slot is left unchanged whenever generate or import fails. -/
theorem c5_counterexample :
    exceptIsOk (importSeed envNoNacl z64 Option.none).1 = false ∧
    (importSeed envNoNacl z64 Option.none).2 = Option.some z64 ∧
    Option.some z64 ≠ (Option.none : Option String) := by decide

/-- C5 amended: hex-decode validation failures leave the slot unchanged in
every environment, and when the crypto primitive is available import
either succeeds or leaves the slot unchanged and generate always
succeeds; but the write precedes keypair derivation, so with the
primitive unavailable an already-validated seed is persisted and the
operation then fails. -/
theorem c5_amended (env env2 : CryptoEnv) (s s2 e : String)
    (st : Option String) (rnd : List Nat)
    (hn : env.naclLoaded = true)
    (hbad : hexToBytes s2 = Except.error e) :
    (exceptIsOk (importSeed env s st).1 = true ∨
      (importSeed env s st).2 = st) ∧
    exceptIsOk (generateWallet env rnd st).1 = true ∧
    (importSeed env2 s2 st).2 = st := by
  refine ⟨?_, ?_, ?_⟩
  · rcases hx : hexToBytes s with er | seed
    · right
      unfold importSeed
      rw [hx]
    · by_cases hlen : seed.length = 32
      · left
        unfold importSeed
        rw [hx]
        simp only [hlen]
        rw [if_neg (by omega)]
        show exceptIsOk (walletFromSeedHex env (bytesToHex seed)) = true
        rw [walletFromSeedHex_ok env seed hn (hexToBytes_ok_lt s seed hx) hlen]
        rfl
      · right
        unfold importSeed
        rw [hx]
        simp [hlen]
  · show exceptIsOk (walletFromSeedHex env (bytesToHex (toSeed32 rnd))) = true
    rw [walletFromSeedHex_ok env _ hn (toSeed32_lt rnd) (toSeed32_length rnd)]
    rfl
  · unfold importSeed
    rw [hbad]

theorem c5_amended_witness :
    (exceptIsOk (importSeed envW z64 Option.none).1 = true ∨
      (importSeed envW z64 Option.none).2 = Option.none) ∧
    exceptIsOk (generateWallet envW [] Option.none).1 = true ∧
    (importSeed envNoNacl "abc" Option.none).2 = Option.none :=
  c5_amended envW envNoNacl z64 "abc" "hex length must be even"
    Option.none [] rfl (by decide)

/-- A 64-character string whose pairs all read "0g": the g is not a hex
digit, but parseInt("0g", 16) parses the leading 0 and yields 0. -/
def gHex : String :=
  "0g0g0g0g0g0g0g0g0g0g0g0g0g0g0g0g0g0g0g0g0g0g0g0g0g0g0g0g0g0g0g0g"

/-- The 31-byte all-zero seed hex (62 characters). -/
def z62 : String := String.mk (List.replicate 62 '0')

/-- C4 counterexample: a string with the non-hex character g in every pair
still imports successfully — each pair parses from its leading digit — and
stores the all-zero normalized seed, refuting the claim that a hex string
containing non-hex characters always raises the invalid-seed error. -/
theorem c4_counterexample :
    exceptIsOk (importSeed envW gHex Option.none).1 = true ∧
    (importSeed envW gHex Option.none).2 = Option.some z64 := by decide

/-- C4 amended: import decodes hex case-insensitively with an optional 0x
prefix and (with the primitive available) succeeds exactly when the
normalized string decodes to exactly 32 bytes; importing 31 bytes of "00"
fails with the invalid-seed error and leaves the slot unchanged, and no
other length is padded or truncated.  "Malformed" means parseInt-prefix
malformed: odd length or a pair whose leading character is not a hex
digit; a pair with a valid leading digit and invalid second character is
accepted as the leading digit's value. -/
theorem c4_amended (env : CryptoEnv) (s : String) (st : Option String)
    (bs : List Nat) (hn : env.naclLoaded = true)
    (hb : ∀ b ∈ bs, b < 256) :
    (exceptIsOk (importSeed env s st).1 = true ↔
      ∃ ds, hexToBytes s = Except.ok ds ∧ ds.length = 32) ∧
    hexToBytes (strUpper (bytesToHex bs)) = Except.ok bs ∧
    hexToBytes (String.mk ('0' :: 'x' :: (bs.map byteHexChars).flatten)) =
      Except.ok bs ∧
    importSeed env z62 st = (Except.error "seed must be 32 bytes", st) := by
  have h31 : hexToBytes z62 = Except.ok (List.replicate 31 0) := by
    have hr := hexToBytes_bytesToHex (List.replicate 31 0)
      (by intro b hb2; rw [List.eq_of_mem_replicate hb2]; omega)
    rwa [show bytesToHex (List.replicate 31 0) = z62 from rfl] at hr
  refine ⟨?_, hexToBytes_upper bs hb, hexToBytes_0x bs hb, ?_⟩
  · constructor
    · intro hok
      rcases hx : hexToBytes s with er | seed
      · exfalso
        unfold importSeed at hok
        rw [hx] at hok
        simp [exceptIsOk] at hok
      · by_cases hlen : seed.length = 32
        · exact ⟨seed, rfl, hlen⟩
        · exfalso
          unfold importSeed at hok
          rw [hx] at hok
          simp [hlen, exceptIsOk] at hok
    · rintro ⟨ds, hds, hlen⟩
      unfold importSeed
      rw [hds]
      simp only [hlen]
      rw [if_neg (by omega)]
      show exceptIsOk (walletFromSeedHex env (bytesToHex ds)) = true
      rw [walletFromSeedHex_ok env ds hn (hexToBytes_ok_lt s ds hds) hlen]
      rfl
  · unfold importSeed
    rw [h31]
    simp

theorem c4_amended_witness :
    (exceptIsOk (importSeed envW z64 Option.none).1 = true ↔
      ∃ ds, hexToBytes z64 = Except.ok ds ∧ ds.length = 32) ∧
    hexToBytes (strUpper (bytesToHex [171, 205])) = Except.ok [171, 205] ∧
    hexToBytes (String.mk ('0' :: 'x' ::
      (([171, 205].map byteHexChars)).flatten)) = Except.ok [171, 205] ∧
    importSeed envW z62 Option.none =
      (Except.error "seed must be 32 bytes", Option.none) :=
  c4_amended envW z64 Option.none [171, 205] rfl (by decide)

theorem signTransfer_getWallet_err (env : CryptoEnv) (st : Option String)
    (toAddr : String) (amt : JsNum) (memo : Option String) (nonce e : String)
    (hg : getWallet env st = Except.error e) :
    signTransfer env st toAddr amt memo nonce = Except.error e := by
  unfold signTransfer
  rw [hg]

theorem signTransfer_getWallet_none (env : CryptoEnv) (st : Option String)
    (toAddr : String) (amt : JsNum) (memo : Option String) (nonce : String)
    (hg : getWallet env st = Except.ok Option.none) :
    signTransfer env st toAddr amt memo nonce =
      Except.error "no local wallet" := by
  unfold signTransfer
  rw [hg]

theorem signTransfer_getWallet_some (env : CryptoEnv) (st : Option String)
    (toAddr : String) (amt : JsNum) (memo : Option String) (nonce : String)
    (w : Wallet) (hg : getWallet env st = Except.ok (Option.some w)) :
    signTransfer env st toAddr amt memo nonce =
      signWithWallet env w toAddr amt memo nonce := by
  unfold signTransfer
  rw [hg]

/-- C3 counterexample: the nonce -5 is not representable as a non-negative
integer, yet signTransfer succeeds and echoes nonce -5 in the payload:
only NaN parses are rejected, negative integers pass the check. -/
theorem c3_counterexample :
    exceptIsOk (signTransfer envW (Option.some z64) "T" jsOne Option.none
      "-5") = true ∧
    Except.map SignedPayload.nonce
      (signTransfer envW (Option.some z64) "T" jsOne Option.none "-5") =
      Except.ok (Option.some (-5 : Int)) := by decide

/-- C3 amended: with a wallet available, build fails with the
invalid-nonce error exactly when parseInt(String(nonce), 10) is NaN —
negative integers are accepted, not rejected — and on success the payload
carries nonce back as the integer v whose decimal string form is the
quoted nonce embedded in the canonical message. -/
theorem c3_amended (env : CryptoEnv) (st : Option String) (toAddr : String)
    (amt : JsNum) (memo : Option String) (nonce nonceBad : String)
    (w : Wallet) (v : Int) (A : String)
    (hw : getWallet env st = Except.ok (Option.some w))
    (hv : jsParseIntDec nonce = Option.some v)
    (hA : pyFloatRepr amt = Except.ok A)
    (hbad : jsParseIntDec nonceBad = Option.none) :
    signTransfer env st toAddr amt memo nonce = Except.ok
      { from_address := w.address,
        public_key := w.publicKeyHex,
        signature := bytesToHex (env.signDetached
          (canonicalMessageSpec A w.address (jsStrOrEmpty memo)
            (jsIntToDecString v) toAddr) w.secretKey),
        nonce := Option.some v,
        memo := jsStrOrEmpty memo,
        canonical_message := canonicalMessageSpec A w.address
          (jsStrOrEmpty memo) (jsIntToDecString v) toAddr } ∧
    signTransfer env st toAddr amt memo nonceBad =
      Except.error "invalid nonce" := by
  constructor
  · rw [signTransfer_getWallet_some env st toAddr amt memo nonce w hw]
    unfold signWithWallet
    rw [hv, show jsNumToString (Option.some v) = jsIntToDecString v from rfl,
      if_neg (by
        rintro (h1 | h2)
        · exact jsIntToDecString_ne_empty v h1
        · exact jsIntToDecString_ne_nan v h2),
      canonicalTxJson_spec w.address toAddr amt memo (jsIntToDecString v) A hA]
    show Except.ok _ = _
    rw [jsParseIntDec_decString v]
  · rw [signTransfer_getWallet_some env st toAddr amt memo nonceBad w hw]
    unfold signWithWallet
    rw [hbad]
    simp [jsNumToString]

theorem c3_amended_witness :
    signTransfer envW (Option.some z64) "T" jsOne Option.none "7" = Except.ok
      { from_address := wZ.address,
        public_key := wZ.publicKeyHex,
        signature := bytesToHex (envW.signDetached
          (canonicalMessageSpec "1.0" wZ.address (jsStrOrEmpty Option.none)
            (jsIntToDecString 7) "T") wZ.secretKey),
        nonce := Option.some 7,
        memo := jsStrOrEmpty Option.none,
        canonical_message := canonicalMessageSpec "1.0" wZ.address
          (jsStrOrEmpty Option.none) (jsIntToDecString 7) "T" } ∧
    signTransfer envW (Option.some z64) "T" jsOne Option.none "abc" =
      Except.error "invalid nonce" :=
  c3_amended envW (Option.some z64) "T" jsOne Option.none "7" "abc" wZ 7 "1.0"
    (by decide) (by decide) (by decide) (by decide)

/-- C10: on every successful signTransfer the payload memo equals exactly
the string serialized into the memo position of canonical_message: both
are String(memo || ""), so a null/undefined memo and the falsy empty
string coerce to "" in both places and the two can never disagree. -/
theorem c10_memo_consistent (env : CryptoEnv) (st : Option String)
    (toAddr : String) (amt : JsNum) (memo : Option String) (nonce : String)
    (p : SignedPayload)
    (hp : signTransfer env st toAddr amt memo nonce = Except.ok p) :
    p.memo = jsStrOrEmpty memo ∧
    ∃ A v, pyFloatRepr amt = Except.ok A ∧
      jsParseIntDec nonce = Option.some v ∧
      p.canonical_message = canonicalMessageSpec A p.from_address p.memo
        (jsIntToDecString v) toAddr := by
  rcases hg : getWallet env st with e | ow
  · rw [signTransfer_getWallet_err env st toAddr amt memo nonce e hg] at hp
    exact Except.noConfusion hp
  · cases ow with
    | none =>
      rw [signTransfer_getWallet_none env st toAddr amt memo nonce hg] at hp
      exact Except.noConfusion hp
    | some w =>
      rw [signTransfer_getWallet_some env st toAddr amt memo nonce w hg] at hp
      unfold signWithWallet at hp
      rcases hv : jsParseIntDec nonce with - | v
      · rw [hv] at hp
        simp [jsNumToString] at hp
      · rw [hv, show jsNumToString (Option.some v) = jsIntToDecString v
          from rfl, if_neg (by
            rintro (h1 | h2)
            · exact jsIntToDecString_ne_empty v h1
            · exact jsIntToDecString_ne_nan v h2)] at hp
        rcases hA : pyFloatRepr amt with e2 | A
        · rw [canonicalTxJson_err w.address toAddr amt memo
            (jsIntToDecString v) e2 hA] at hp
          exact Except.noConfusion hp
        · rw [canonicalTxJson_spec w.address toAddr amt memo
            (jsIntToDecString v) A hA] at hp
          have hrec := Except.ok.inj hp
          subst hrec
          exact ⟨rfl, A, v, rfl, rfl, rfl⟩

/-- The payload envW produces for the all-zero wallet, target "T",
amount 1, null memo and nonce "7". -/
def pW : SignedPayload :=
  { from_address := wZ.address,
    public_key := z64,
    signature := "",
    nonce := Option.some 7,
    memo := "",
    canonical_message := canonicalMessageSpec "1.0" wZ.address "" "7" "T" }

theorem c10_memo_consistent_witness :
    (pW).memo = jsStrOrEmpty Option.none ∧
    ∃ A v, pyFloatRepr jsOne = Except.ok A ∧
      jsParseIntDec "7" = Option.some v ∧
      (pW).canonical_message = canonicalMessageSpec A (pW).from_address
        (pW).memo (jsIntToDecString v) "T" :=
  c10_memo_consistent envW (Option.some z64) "T" jsOne Option.none "7" pW
    (by decide)

end RC
